import Mathlib

/-!
Verification of the hierarchical conversation-history engine and the agent
directory manager of this repository.

The history engine (Message / Topic / Bulk / History) is specified in the
repository documentation and exercised by its integration tests; the module
implementing it is not part of the checked-out sources, so the definitions
below are modelled from the specification text.  The agent manager is
embedded directly from instruments/default/agent_manager/agent_manager.py.

Budget fractions are represented as pairs of natural numbers (numerator /
denominator) so that every operation is kernel-computable; a bridge lemma
relates the natural-number ceiling formula to the rational ceiling used in
the specification.
-/

namespace AgentZero

/-- Modelled from the spec: a budget fraction such as the topic compress
fraction 0.65, kept as numerator and denominator so all arithmetic stays in
the natural numbers. -/
structure Frac where
  num : Nat
  den : Nat
deriving DecidableEq

/-- Rational denotation of a fraction. -/
def Frac.toRat (r : Frac) : ℚ := (r.num : ℚ) / (r.den : ℚ)

/-- Modelled from the spec: the default value 0.65 of the topic compress
fraction (spec section 6, named TOPIC_COMPRESS_RATIO there). -/
def topicCompressFrac : Frac := ⟨13, 20⟩

/-- Modelled from the spec: the atomic unit, one conversation turn with an
author flag, structured content (rendered form) and a derived flag marking
messages that are themselves summaries of other messages. -/
structure Message where
  ai : Bool
  content : String
  summary : Bool
deriving DecidableEq, Inhabited

/-- Modelled from the spec: the wire form of a message, a label plus body. -/
def Message.render (m : Message) : String :=
  (if m.ai then "AI: " else "Human: ") ++ m.content

/-- Modelled from the spec: truncation replaces content with a head and tail
excerpt plus an explicit placeholder stating the omitted length; a message
already within the limit is left alone. -/
def Message.truncate (maxChars : Nat) (m : Message) : Message :=
  if m.content.length ≤ maxChars then m
  else
    { m with content :=
        m.content.take (maxChars / 2)
        ++ "[... omitted " ++ toString (m.content.length - maxChars) ++ " characters ...]"
        ++ m.content.takeRight (maxChars / 2) }

/-- Modelled from the spec: an ordered mutable sequence of messages forming
one conversational unit, with an optional summary (empty string = absent,
present only after summarize succeeds). -/
structure Topic where
  summary : String
  messages : List Message
deriving DecidableEq, Inhabited

/-- Modelled from the spec: an ordered sequence of closed, summarized topic
records with a combined summary. -/
structure Bulk where
  records : List Topic
  summary : String
deriving DecidableEq, Inhabited

/-- Modelled from the spec: the top level container, oldest first across
tiers, bulks then closed topics then the current topic. -/
structure History where
  bulks : List Bulk
  topics : List Topic
  current : Topic
deriving DecidableEq, Inhabited

/-- Modelled from the spec: explicit configuration passed into compression
calls, holding the budget, the tier fractions and the two external
collaborators (token estimator and summarization service). -/
structure Config where
  ctxLength : Nat
  ctxHistory : Frac
  currentTopicFrac : Frac
  historyTopicFrac : Frac
  historyBulkFrac : Frac
  topicCompressFr : Frac
  largeMessageToTopicFrac : Frac
  bulkMergeCount : Nat
  tokenCount : String → Nat
  summarize : List Message → Option String

/-- Well-formedness of a configuration: the history fraction and every tier
fraction have positive numerator and denominator. -/
@[reducible] def Config.WF (cfg : Config) : Prop :=
  0 < cfg.ctxHistory.num ∧ 0 < cfg.ctxHistory.den ∧
  0 < cfg.currentTopicFrac.num ∧ 0 < cfg.currentTopicFrac.den ∧
  0 < cfg.historyTopicFrac.num ∧ 0 < cfg.historyTopicFrac.den ∧
  0 < cfg.historyBulkFrac.num ∧ 0 < cfg.historyBulkFrac.den

/-- Modelled from the spec: the number of interior messages summarized by one
attention compression, the ceiling of (n - 2) times the topic compress
fraction, computed as a natural-number ceiling division. -/
def summaryCount (r : Frac) (n : Nat) : Nat :=
  ((n - 2) * r.num + r.den - 1) / r.den

/-- Token estimate of a topic: the sum of the estimates of its rendered
messages. -/
def Topic.get_tokens (tk : String → Nat) (t : Topic) : Nat :=
  (t.messages.map (fun m => tk m.render)).sum

/-- Modelled from the spec: attention compression.  With at least three
messages, the span of summaryCount messages immediately after the first is
sent to the summarization service and, on success, replaced by exactly one
synthetic summary message; the first and last messages are never touched.
Returns true iff the span is nonempty and the service call succeeds. -/
def Topic.compress_attention (r : Frac) (svc : List Message → Option String)
    (t : Topic) : Bool × Topic :=
  if 3 ≤ t.messages.length then
    if ((t.messages.drop 1).take (summaryCount r t.messages.length)).isEmpty then
      (false, t)
    else
      match svc ((t.messages.drop 1).take (summaryCount r t.messages.length)) with
      | some s =>
          (true, { t with messages :=
              t.messages.take 1
              ++ ({ ai := false, content := s, summary := true } : Message)
                :: t.messages.drop (1 + summaryCount r t.messages.length) })
      | none => (false, t)
  else (false, t)

/-- Numerator of the large-message token threshold
ctxLength * ctxHistory * historyTopicFrac * largeMessageToTopicFrac. -/
def Config.msgMaxNum (cfg : Config) : Nat :=
  cfg.ctxLength * cfg.ctxHistory.num * cfg.historyTopicFrac.num
    * cfg.largeMessageToTopicFrac.num

/-- Denominator of the large-message token threshold. -/
def Config.msgMaxDen (cfg : Config) : Nat :=
  cfg.ctxHistory.den * cfg.historyTopicFrac.den * cfg.largeMessageToTopicFrac.den

/-- Does the token count of this message exceed the large-message
threshold?  Cross-multiplied comparison of tokens with msgMaxNum/msgMaxDen. -/
def Config.msgOver (cfg : Config) (m : Message) : Bool :=
  cfg.msgMaxNum < cfg.tokenCount m.render * cfg.msgMaxDen

/-- Character budget a large message is trimmed to, the floor of the token
threshold. -/
def Config.trimChars (cfg : Config) : Nat :=
  cfg.msgMaxNum / cfg.msgMaxDen

/-- Indices of interior messages (neither the first nor the last) whose token
count exceeds the large-message threshold. -/
def Topic.interiorOver (cfg : Config) (t : Topic) : List Nat :=
  (List.range t.messages.length).filter (fun i =>
    decide (1 ≤ i) && decide (i + 1 < t.messages.length)
      && cfg.msgOver (t.messages.getD i default))

/-- Index of a maximal element under f, preferring the earliest on ties. -/
def argmaxBy (f : Nat → Nat) : List Nat → Option Nat
  | [] => none
  | i :: is =>
    match argmaxBy f is with
    | none => some i
    | some j => if f i < f j then some j else some i

/-- Modelled from the spec: large-message compression scans the interior
messages for any whose token count exceeds the threshold and truncates the
largest offender in place; returns true iff a message was truncated. -/
def Topic.compress_large_messages (cfg : Config) (t : Topic) : Bool × Topic :=
  match argmaxBy (fun i => cfg.tokenCount (t.messages.getD i default).render)
      (t.interiorOver cfg) with
  | none => (false, t)
  | some i =>
      (true, { t with messages :=
          t.messages.set i ((t.messages.getD i default).truncate cfg.trimChars) })

/-- Modelled from the spec: topic compression tries large-message truncation
first, then attention compression; false when neither applies. -/
def Topic.compress (cfg : Config) (t : Topic) : Bool × Topic :=
  let r := t.compress_large_messages cfg
  if r.1 then r else t.compress_attention cfg.topicCompressFr cfg.summarize

/-- Modelled from the spec: summarize produces the topic summary by sending
the full content to the summarization service; a failed call leaves the
topic intact and reports false. -/
def Topic.summarize (svc : List Message → Option String) (t : Topic) :
    Bool × Topic :=
  match svc t.messages with
  | some s => (true, { t with summary := s })
  | none => (false, t)

/-- The empty bulk, the seed for folding topics. -/
def Bulk.empty : Bulk := ⟨[], ""⟩

/-- Modelled from the spec: a bulk never accepts a topic lacking a summary;
otherwise the topic record is appended and its summary folded into the bulk
summary. -/
def Bulk.accept (t : Topic) (b : Bulk) : Option Bulk :=
  if t.summary = "" then none
  else some ⟨b.records ++ [t],
    b.summary ++ (if b.summary = "" then "" else "\n") ++ t.summary⟩

/-- Token estimate of a bulk: the estimate of its combined summary, which is
what the bulk contributes to the rendered context. -/
def Bulk.get_tokens (tk : String → Nat) (b : Bulk) : Nat :=
  tk b.summary

/-- Modelled from the spec: a fresh history has no bulks, no closed topics
and an empty current topic. -/
def History.new : History := ⟨[], [], ⟨"", []⟩⟩

/-- Modelled from the spec: append a new message to the current topic;
purely an append, no compression. -/
def History.add_message (ai : Bool) (content : String) (h : History) : History :=
  { h with current :=
      { h.current with messages := h.current.messages ++ [⟨ai, content, false⟩] } }

/-- Modelled from the spec: close the current topic by pushing it onto the
closed-topics tier and start a fresh one; a no-op when current is empty. -/
def History.new_topic (h : History) : History :=
  if h.current.messages.isEmpty then h
  else { h with topics := h.topics ++ [h.current], current := ⟨"", []⟩ }

/-- Flatten all tiers oldest first (bulks, then closed topics, then current)
into the linear message sequence. -/
def History.output (h : History) : List Message :=
  ((h.bulks.map (fun b => (b.records.map Topic.messages).flatten)).flatten)
    ++ (h.topics.map Topic.messages).flatten
    ++ h.current.messages

/-- Total token estimate across all tiers. -/
def History.get_tokens (cfg : Config) (h : History) : Nat :=
  (h.bulks.map (Bulk.get_tokens cfg.tokenCount)).sum
    + (h.topics.map (Topic.get_tokens cfg.tokenCount)).sum
    + h.current.get_tokens cfg.tokenCount

/-- Modelled from the spec: pure predicate comparing the total token
estimate against ctxLength times the history fraction. -/
def History.is_over_limit (cfg : Config) (h : History) : Bool :=
  cfg.ctxLength * cfg.ctxHistory.num < h.get_tokens cfg * cfg.ctxHistory.den

/-- The three history tiers, in the priority order of the spec. -/
inductive Tier where
  | curr
  | closedTopics
  | bulkTier
deriving DecidableEq

/-- Token estimate of one tier. -/
def History.tierTokens (cfg : Config) (h : History) : Tier → Nat
  | .curr => h.current.get_tokens cfg.tokenCount
  | .closedTopics => (h.topics.map (Topic.get_tokens cfg.tokenCount)).sum
  | .bulkTier => (h.bulks.map (Bulk.get_tokens cfg.tokenCount)).sum

/-- The budget fraction configured for one tier. -/
def Config.tierFrac (cfg : Config) : Tier → Frac
  | .curr => cfg.currentTopicFrac
  | .closedTopics => cfg.historyTopicFrac
  | .bulkTier => cfg.historyBulkFrac

/-- Is a tier over its budget?  Cross-multiplied comparison of the tier
tokens with ctxLength * ctxHistory * tierFrac. -/
def History.tierOverB (cfg : Config) (h : History) (tr : Tier) : Bool :=
  cfg.ctxLength * cfg.ctxHistory.num * (cfg.tierFrac tr).num
    < h.tierTokens cfg tr * (cfg.ctxHistory.den * (cfg.tierFrac tr).den)

/-- Does tier a have a share (tokens divided by its fraction) at least that
of tier b?  Cross-multiplied comparison. -/
def History.shareGeB (cfg : Config) (h : History) (a b : Tier) : Bool :=
  h.tierTokens cfg b * (cfg.tierFrac b).den * (cfg.tierFrac a).num
    ≤ h.tierTokens cfg a * (cfg.tierFrac a).den * (cfg.tierFrac b).num

/-- The most over-budget tier, none when no tier is over budget; ties are
broken by the priority order current, closed topics, bulks. -/
def History.mostOverTier (cfg : Config) (h : History) : Option Tier :=
  if h.tierOverB cfg .curr
      && (!h.tierOverB cfg .closedTopics || h.shareGeB cfg .curr .closedTopics)
      && (!h.tierOverB cfg .bulkTier || h.shareGeB cfg .curr .bulkTier) then
    some .curr
  else if h.tierOverB cfg .closedTopics
      && (!h.tierOverB cfg .bulkTier || h.shareGeB cfg .closedTopics .bulkTier) then
    some .closedTopics
  else if h.tierOverB cfg .bulkTier then
    some .bulkTier
  else
    none

/-- Rational share of a tier: its token estimate divided by its configured
budget fraction, the quantity the scheduling policy maximizes. -/
def History.tierShare (cfg : Config) (h : History) (tr : Tier) : ℚ :=
  (h.tierTokens cfg tr : ℚ) * ((cfg.tierFrac tr).den : ℚ) / ((cfg.tierFrac tr).num : ℚ)

/-- Rational formulation of a tier being over budget: its token estimate
exceeds ctxLength times the history fraction times its tier fraction. -/
def History.tierOverQ (cfg : Config) (h : History) (tr : Tier) : Prop :=
  (cfg.ctxLength : ℚ) * cfg.ctxHistory.toRat * (cfg.tierFrac tr).toRat
    < (h.tierTokens cfg tr : ℚ)

/-- Compression action of the current-topic tier: large-message truncation
or attention compression on the current topic. -/
def History.compress_current_topic (cfg : Config) (h : History) : Bool × History :=
  let r := h.current.compress cfg
  (r.1, { h with current := r.2 })

/-- Modelled from the spec: fold a summarized topic into the newest bulk, or
start a new bulk when there is none or the newest one has grown past the
merge threshold; fails when the topic lacks a summary. -/
def History.fold_topic (cfg : Config) (t : Topic) (h : History) : Option History :=
  match h.bulks.getLast? with
  | some b =>
      if b.records.length < cfg.bulkMergeCount then
        match b.accept t with
        | some b' => some { h with bulks := h.bulks.dropLast ++ [b'] }
        | none => none
      else
        match Bulk.empty.accept t with
        | some b' => some { h with bulks := h.bulks ++ [b'] }
        | none => none
  | none =>
      match Bulk.empty.accept t with
      | some b' => some { h with bulks := h.bulks ++ [b'] }
      | none => none

/-- Compression action of the closed-topics tier: summarize the oldest
closed topic and fold it into a bulk; a failed summarization is a no-op. -/
def History.compress_topics (cfg : Config) (h : History) : Bool × History :=
  match h.topics with
  | [] => (false, h)
  | t :: rest =>
      if (t.summarize cfg.summarize).1 then
        match h.fold_topic cfg (t.summarize cfg.summarize).2 with
        | some h' => (true, { h' with topics := rest })
        | none => (false, h)
      else (false, h)

/-- Modelled from the spec: merging bulks is observed to be a deliberate
no-op that reports failure whenever any bulks already exist; with no bulks
there is nothing to merge, so it is a no-op in every case. -/
def History.merge_bulks_by (_n : Nat) (h : History) : Bool × History :=
  if h.bulks.isEmpty then (false, h) else (false, h)

/-- Modelled from the spec: bulk-tier compression evicts the oldest bulk, a
hard lossy drop; the boolean it reports is false even on a successful
removal (the inverted polarity the spec notes for the observed tests). -/
def History.compress_bulks (h : History) : Bool × History :=
  match h.bulks with
  | [] => (false, h)
  | _ :: rest => (false, { h with bulks := rest })

/-- Bulk-tier action as seen by the top-level scheduler: merge first (which
never succeeds), then evict the oldest bulk; succeeded iff a bulk existed. -/
def History.bulk_tier_action (cfg : Config) (h : History) : Bool × History :=
  if (h.merge_bulks_by cfg.bulkMergeCount).1 then h.merge_bulks_by cfg.bulkMergeCount
  else
    match h.bulks with
    | [] => (false, h)
    | _ :: rest => (true, { h with bulks := rest })

/-- The one compression action of each tier. -/
def History.tierAction (cfg : Config) (tr : Tier) (h : History) : Bool × History :=
  match tr with
  | .curr => h.compress_current_topic cfg
  | .closedTopics => h.compress_topics cfg
  | .bulkTier => h.bulk_tier_action cfg

/-- Modelled from the spec: the scheduling policy attempts exactly one
compression action per call, on the most over-budget tier, and returns that
action result unchanged; when no tier is over budget it is a no-op
reporting false. -/
def History.compress (cfg : Config) (h : History) : Bool × History :=
  match h.mostOverTier cfg with
  | none => (false, h)
  | some tr => h.tierAction cfg tr

/-- Modelled from the spec: the structured snapshot values the serializer
produces and the deserializer consumes (strings, booleans, ordered arrays
and ordered key-value objects). -/
inductive JVal where
  | str : String → JVal
  | bool : Bool → JVal
  | arr : List JVal → JVal
  | obj : List (String × JVal) → JVal

/-- Snapshot record of one message: author flag, content, summary flag. -/
def Message.toJ (m : Message) : JVal :=
  .obj [("ai", .bool m.ai), ("content", .str m.content), ("summary", .bool m.summary)]

/-- Parse one message record, failing fast on any malformed shape. -/
def jMessage : JVal → Option Message
  | .obj [("ai", .bool a), ("content", .str c), ("summary", .bool s)] =>
      some ⟨a, c, s⟩
  | _ => none

/-- Parse a list of message records, failing fast on the first bad one. -/
def jMessages : List JVal → Option (List Message)
  | [] => some []
  | j :: js =>
      match jMessage j, jMessages js with
      | some m, some ms => some (m :: ms)
      | _, _ => none

/-- Snapshot record of one topic: its summary and its messages. -/
def Topic.toJ (t : Topic) : JVal :=
  .obj [("summary", .str t.summary), ("messages", .arr (t.messages.map Message.toJ))]

/-- Parse one topic record. -/
def jTopic : JVal → Option Topic
  | .obj [("summary", .str s), ("messages", .arr js)] =>
      match jMessages js with
      | some ms => some ⟨s, ms⟩
      | none => none
  | _ => none

/-- Parse a list of topic records. -/
def jTopics : List JVal → Option (List Topic)
  | [] => some []
  | j :: js =>
      match jTopic j, jTopics js with
      | some t, some ts => some (t :: ts)
      | _, _ => none

/-- Snapshot record of one bulk: its combined summary and its topic records. -/
def Bulk.toJ (b : Bulk) : JVal :=
  .obj [("summary", .str b.summary), ("records", .arr (b.records.map Topic.toJ))]

/-- Parse one bulk record. -/
def jBulk : JVal → Option Bulk
  | .obj [("summary", .str s), ("records", .arr js)] =>
      match jTopics js with
      | some ts => some ⟨ts, s⟩
      | none => none
  | _ => none

/-- Parse a list of bulk records. -/
def jBulks : List JVal → Option (List Bulk)
  | [] => some []
  | j :: js =>
      match jBulk j, jBulks js with
      | some b, some bs => some (b :: bs)
      | _, _ => none

/-- Modelled from the spec: the order-preserving snapshot of bulks, closed
topics and the current topic. -/
def History.serialize (h : History) : JVal :=
  .obj [("bulks", .arr (h.bulks.map Bulk.toJ)),
        ("topics", .arr (h.topics.map Topic.toJ)),
        ("current", h.current.toJ)]

/-- Modelled from the spec: consume a snapshot, failing fast with none on
any malformed shape, never silently dropping records. -/
def History.from_dict : JVal → Option History
  | .obj [("bulks", .arr jb), ("topics", .arr jt), ("current", jc)] =>
      match jBulks jb, jTopics jt, jTopic jc with
      | some bs, some ts, some c => some ⟨bs, ts, c⟩
      | _, _, _ => none
  | _ => none

/-- The histories reachable from a fresh instance by the public mutating
operations (message append, topic rollover, each compression entry point
and a serialization round trip). -/
inductive Reachable : History → Prop where
  | init : Reachable History.new
  | add (ai : Bool) (c : String) {h : History} :
      Reachable h → Reachable (h.add_message ai c)
  | newTopic {h : History} : Reachable h → Reachable h.new_topic
  | comp (cfg : Config) {h : History} :
      Reachable h → Reachable (h.compress cfg).2
  | compCurrent (cfg : Config) {h : History} :
      Reachable h → Reachable (h.compress_current_topic cfg).2
  | compTopics (cfg : Config) {h : History} :
      Reachable h → Reachable (h.compress_topics cfg).2
  | compBulks {h : History} : Reachable h → Reachable h.compress_bulks.2
  | mergeBulks (n : Nat) {h : History} :
      Reachable h → Reachable (h.merge_bulks_by n).2
  | roundTrip {h h2 : History} :
      Reachable h → History.from_dict h.serialize = some h2 → Reachable h2

/-- Invariant of the bulk tier: every topic record stored inside any bulk
carries a non-empty summary. -/
def BulkInv (h : History) : Prop :=
  ∀ b ∈ h.bulks, ∀ t ∈ b.records, t.summary ≠ ""

/-- Concrete configuration with a tiny context window of 4, forcing the
current topic over budget. -/
def cfgOver : Config :=
  { ctxLength := 4
    ctxHistory := ⟨1, 1⟩
    currentTopicFrac := ⟨1, 2⟩
    historyTopicFrac := ⟨1, 4⟩
    historyBulkFrac := ⟨1, 4⟩
    topicCompressFr := topicCompressFrac
    largeMessageToTopicFrac := ⟨1, 2⟩
    bulkMergeCount := 3
    tokenCount := fun s => s.length
    summarize := fun _ => some "mock summary" }

/-- Concrete configuration with a context window of 80, used by the
large-message witness: the per-message threshold is 10 tokens and the trim
budget 10 characters. -/
def cfgT : Config :=
  { ctxLength := 80
    ctxHistory := ⟨1, 1⟩
    currentTopicFrac := ⟨1, 2⟩
    historyTopicFrac := ⟨1, 4⟩
    historyBulkFrac := ⟨1, 4⟩
    topicCompressFr := topicCompressFrac
    largeMessageToTopicFrac := ⟨1, 2⟩
    bulkMergeCount := 3
    tokenCount := fun s => s.length
    summarize := fun _ => some "mock summary" }

/-- Concrete three-message topic whose middle message is over the
large-message threshold of cfgT. -/
def topicT : Topic :=
  ⟨"", [⟨false, "hello", false⟩, ⟨true, "0123456789ABCDEF", false⟩,
        ⟨false, "bye", false⟩]⟩

/-- Concrete configuration used by the witness statements: character-count
token estimator and an always-succeeding summarization service. -/
def cfgW : Config :=
  { ctxLength := 100
    ctxHistory := ⟨1, 1⟩
    currentTopicFrac := ⟨1, 2⟩
    historyTopicFrac := ⟨1, 4⟩
    historyBulkFrac := ⟨1, 4⟩
    topicCompressFr := topicCompressFrac
    largeMessageToTopicFrac := ⟨1, 2⟩
    bulkMergeCount := 3
    tokenCount := fun s => s.length
    summarize := fun _ => some "mock summary" }

/-- Variant of the witness configuration whose summarization service always
fails. -/
def cfgFail : Config :=
  { cfgW with summarize := fun _ => none }

/-- Witness message number i. -/
def msgW (i : Nat) : Message :=
  ⟨decide (i % 2 = 1), "Message " ++ toString i ++ " about Python", false⟩

/-- Witness topic with n generated messages and no summary. -/
def topicW (n : Nat) : Topic :=
  ⟨"", (List.range n).map msgW⟩

/-- Witness history whose current topic is over the tiny budget of
cfgOver. -/
def hOver : History := ⟨[], [], topicW 3⟩

end AgentZero

namespace AgentManager

/-- Abstract state of the agents directory: each existing agent directory
with its subdirectory entries, plus the currently selected agent name from
the settings store. -/
structure FsState where
  agents : List (String × List String)
  currentAgent : String
deriving DecidableEq

/-- Embeds AgentManager.agent_exists: an agent exists when a directory of
that name is present under the agents root. -/
def agent_exists (fs : FsState) (name : String) : Bool :=
  fs.agents.any (fun p => p.1 = name)

/-- Embeds AgentManager.delete_agent: validate existence (an empty name is
treated as non-existent, matching the guard in the code), refuse the zero
agent, refuse the currently selected agent, demand the exact confirmation
string, and only then remove the agent directory tree.  A raised ValueError
is modelled as an error value paired with the untouched state. -/
def delete_agent (fs : FsState) (name confirmation : String) :
    Except String Bool × FsState :=
  if name = "" ∨ agent_exists fs name = false then
    (.error ("Agent " ++ name ++ " does not exist"), fs)
  else if name = "zero" then
    (.error "Cannot delete the zero agent - it is required by the system", fs)
  else if name = fs.currentAgent then
    (.error "Cannot delete currently active agent", fs)
  else if confirmation ≠ "DELETE " ++ name then
    (.error ("Deletion requires explicit confirmation. Please confirm by providing: DELETE " ++ name), fs)
  else
    (.ok true, { fs with agents := fs.agents.filter (fun p => p.1 ≠ name) })

end AgentManager

namespace AgentZero

theorem jMessage_toJ (m : Message) : jMessage m.toJ = some m := by
  cases m; rfl

theorem jMessages_map (ms : List Message) :
    jMessages (ms.map Message.toJ) = some ms := by
  induction ms with
  | nil => rfl
  | cons m ms ih => simp [jMessages, jMessage_toJ, ih]

theorem jTopic_toJ (t : Topic) : jTopic t.toJ = some t := by
  cases t with
  | mk s ms => simp [Topic.toJ, jTopic, jMessages_map]

theorem jTopics_map (ts : List Topic) :
    jTopics (ts.map Topic.toJ) = some ts := by
  induction ts with
  | nil => rfl
  | cons t ts ih => simp [jTopics, jTopic_toJ, ih]

theorem jBulk_toJ (b : Bulk) : jBulk b.toJ = some b := by
  cases b with
  | mk rs s => simp [Bulk.toJ, jBulk, jTopics_map]

theorem jBulks_map (bs : List Bulk) :
    jBulks (bs.map Bulk.toJ) = some bs := by
  induction bs with
  | nil => rfl
  | cons b bs ih => simp [jBulks, jBulk_toJ, ih]

theorem from_dict_serialize (h : History) :
    History.from_dict h.serialize = some h := by
  cases h with
  | mk bs ts c =>
      simp [History.serialize, History.from_dict, jBulks_map, jTopics_map, jTopic_toJ]

/-- C2: serializing a history, deserializing the snapshot via from_dict and
serializing again yields identical structured content; the flattened
outputs have equal length and agree message by message on content and on
the ai role flag across all tiers. -/
theorem c2_serialize_round_trip (h : History) :
    ∃ h2, History.from_dict h.serialize = some h2
      ∧ h2.serialize = h.serialize
      ∧ h2.output.length = h.output.length
      ∧ h2.output.map (fun m => (m.content, m.ai)) = h.output.map (fun m => (m.content, m.ai)) := by
  exact ⟨h, from_dict_serialize h, rfl, rfl, rfl⟩

/-- C6: on a history whose bulk tier holds at least one bulk, compress_bulks
removes exactly the oldest bulk, leaves the remaining bulks untouched and
in their original order, and reports false on the successful removal. -/
theorem c6_compress_bulks_evicts_oldest (h : History) (b : Bulk) (rest : List Bulk)
    (hb : h.bulks = b :: rest) :
    h.compress_bulks = (false, { h with bulks := rest }) := by
  cases h with
  | mk bulks topics current =>
      simp only at hb
      subst hb
      rfl

/-- Witness for C6 at a concrete two-bulk history. -/
theorem c6_witness :
    History.compress_bulks
        ⟨[⟨[⟨"s0", [msgW 0]⟩], "s0"⟩, ⟨[⟨"s1", [msgW 1]⟩], "s1"⟩], [], ⟨"", []⟩⟩
      = (false, ⟨[⟨[⟨"s1", [msgW 1]⟩], "s1"⟩], [], ⟨"", []⟩⟩) :=
  c6_compress_bulks_evicts_oldest
    ⟨[⟨[⟨"s0", [msgW 0]⟩], "s0"⟩, ⟨[⟨"s1", [msgW 1]⟩], "s1"⟩], [], ⟨"", []⟩⟩
    ⟨[⟨"s0", [msgW 0]⟩], "s0"⟩ [⟨[⟨"s1", [msgW 1]⟩], "s1"⟩] rfl

/-- C7: with a non-empty bulk list, merge_bulks_by reports failure for every
count and leaves the history, in particular the number of bulks,
unchanged. -/
theorem c7_merge_bulks_noop (h : History) (n : Nat) (_hne : h.bulks ≠ []) :
    h.merge_bulks_by n = (false, h)
      ∧ (h.merge_bulks_by n).2.bulks.length = h.bulks.length := by
  refine ⟨?_, ?_⟩ <;> · unfold History.merge_bulks_by; split <;> rfl

/-- Witness for C7 at a concrete one-bulk history. -/
theorem c7_witness :
    History.merge_bulks_by 3 ⟨[⟨[⟨"s0", [msgW 0]⟩], "s0"⟩], [], ⟨"", []⟩⟩
        = (false, ⟨[⟨[⟨"s0", [msgW 0]⟩], "s0"⟩], [], ⟨"", []⟩⟩)
      ∧ (History.merge_bulks_by 3 ⟨[⟨[⟨"s0", [msgW 0]⟩], "s0"⟩], [], ⟨"", []⟩⟩).2.bulks.length
        = 1 :=
  c7_merge_bulks_noop ⟨[⟨[⟨"s0", [msgW 0]⟩], "s0"⟩], [], ⟨"", []⟩⟩ 3 (by decide)

theorem interiorOver_nil_of_short (cfg : Config) (t : Topic)
    (h : t.messages.length < 3) : t.interiorOver cfg = [] := by
  unfold Topic.interiorOver
  apply List.filter_eq_nil_iff.mpr
  intro i hi
  rw [List.mem_range] at hi
  simp only [Bool.and_eq_true, decide_eq_true_eq, not_and]
  intro h1 h2
  omega

theorem mostOverTier_none (cfg : Config) (h : History)
    (hall : ∀ tr, h.tierOverB cfg tr = false) :
    h.mostOverTier cfg = none := by
  simp [History.mostOverTier, hall Tier.curr, hall Tier.closedTopics, hall Tier.bulkTier]

/-- C4: when no compression is applicable the entry points are safe no-ops:
a history with no tier over budget is left untouched by compress with a
false result, and a topic with fewer than three messages (such as the
two-message scenario of the spec) is left untouched by topic compression
with a false result; both are total functions, so no exception can
escape. -/
theorem c4_no_compression_noop (cfg : Config) (h : History) (t : Topic) :
    ((∀ tr, h.tierOverB cfg tr = false) → h.compress cfg = (false, h))
    ∧ (t.messages.length < 3 → t.compress cfg = (false, t)) := by
  constructor
  · intro hall
    simp [History.compress, mostOverTier_none cfg h hall]
  · intro hlen
    have hio : t.interiorOver cfg = [] := interiorOver_nil_of_short cfg t hlen
    have hlarge : t.compress_large_messages cfg = (false, t) := by
      simp [Topic.compress_large_messages, hio, argmaxBy]
    have hatt : t.compress_attention cfg.topicCompressFr cfg.summarize = (false, t) := by
      unfold Topic.compress_attention
      rw [if_neg (by omega)]
    simp [Topic.compress, hlarge, hatt]

/-- Witness for C4: the two-message Hi / Hello topic of the spec scenario
and a fresh empty history. -/
theorem c4_witness :
    Topic.compress cfgW ⟨"", [⟨false, "Hi", false⟩, ⟨true, "Hello!", false⟩]⟩
        = (false, ⟨"", [⟨false, "Hi", false⟩, ⟨true, "Hello!", false⟩]⟩)
      ∧ History.compress cfgW History.new = (false, History.new) :=
  ⟨(c4_no_compression_noop cfgW History.new
      ⟨"", [⟨false, "Hi", false⟩, ⟨true, "Hello!", false⟩]⟩).2 (by decide),
   (c4_no_compression_noop cfgW History.new
      ⟨"", [⟨false, "Hi", false⟩, ⟨true, "Hello!", false⟩]⟩).1
      (fun tr => by cases tr <;> rfl)⟩

/-- C9: a failing or unparseable summarization call degrades to a no-op
that reports false and leaves the messages intact, both for attention
compression of a topic and for the closed-topics action of the history;
both functions are total, so the failure cannot raise past the compress
call. -/
theorem c9_summarization_failure_noop (cfg : Config) (t : Topic) (h : History)
    (t0 : Topic) (rest : List Topic) :
    (cfg.summarize ((t.messages.drop 1).take
          (summaryCount cfg.topicCompressFr t.messages.length)) = none →
      t.compress_attention cfg.topicCompressFr cfg.summarize = (false, t))
    ∧ (h.topics = t0 :: rest → cfg.summarize t0.messages = none →
      h.compress_topics cfg = (false, h)) := by
  constructor
  · intro hsvc
    unfold Topic.compress_attention
    split
    · simp only [hsvc]
      split <;> rfl
    · rfl
  · intro htop hsvc
    unfold History.compress_topics
    rw [htop]
    simp [Topic.summarize, hsvc]

/-- Witness for C9: the failing service on a concrete four-message topic
and on a history holding one closed topic. -/
theorem c9_witness :
    Topic.compress_attention cfgFail.topicCompressFr cfgFail.summarize (topicW 4)
        = (false, topicW 4)
      ∧ History.compress_topics cfgFail ⟨[], [topicW 2], ⟨"", []⟩⟩
        = (false, ⟨[], [topicW 2], ⟨"", []⟩⟩) :=
  ⟨(c9_summarization_failure_noop cfgFail (topicW 4)
      ⟨[], [topicW 2], ⟨"", []⟩⟩ (topicW 2) []).1 rfl,
   (c9_summarization_failure_noop cfgFail (topicW 4)
      ⟨[], [topicW 2], ⟨"", []⟩⟩ (topicW 2) []).2 rfl rfl⟩

theorem natCeilDiv_cast (a d : Nat) (hd : 0 < d) :
    (((a + d - 1) / d : Nat) : ℤ) = ⌈(a : ℚ) / (d : ℚ)⌉ := by
  have hdq : (0 : ℚ) < (d : ℚ) := by exact_mod_cast hd
  set q := (a + d - 1) / d with hqdef
  have hq1 : a + d - 1 < q * d + d := by
    have := (Nat.div_lt_iff_lt_mul hd).mp (Nat.lt_succ_of_le (Nat.le_refl q))
    rw [Nat.succ_mul] at this
    exact this
  have h1 : a ≤ q * d := by omega
  have h2 : q * d ≤ a + d - 1 := hqdef ▸ Nat.div_mul_le_self _ _
  have h2' : q * d + 1 ≤ a + d := by omega
  apply le_antisymm
  · rw [← Int.sub_one_lt_iff, Int.lt_ceil]
    push_cast
    rw [lt_div_iff₀ hdq]
    have hc : (q : ℚ) * d + 1 ≤ (a : ℚ) + d := by exact_mod_cast h2'
    ring_nf
    ring_nf at hc
    linarith
  · rw [Int.ceil_le, div_le_iff₀ hdq]
    push_cast
    exact_mod_cast h1

theorem summaryCount_eq_ceil (r : Frac) (hden : 0 < r.den) (n : Nat) (hn : 2 ≤ n) :
    ((summaryCount r n : Nat) : ℤ) = ⌈((n : ℚ) - 2) * r.toRat⌉ := by
  have hns : (((n - 2 : ℕ)) : ℚ) = (n : ℚ) - 2 := by
    have := Nat.cast_sub (R := ℚ) hn
    simpa using this
  have hrw : ((n : ℚ) - 2) * r.toRat = (((n - 2) * r.num : ℕ) : ℚ) / (r.den : ℚ) := by
    rw [← hns]
    unfold Frac.toRat
    push_cast
    ring
  rw [hrw]
  exact natCeilDiv_cast _ _ hden

theorem getLast?_drop_of_lt {α : Type} (l : List α) (k : Nat) (h : k < l.length) :
    (l.drop k).getLast? = l.getLast? := by
  conv_rhs => rw [← List.take_append_drop k l]
  rw [List.getLast?_append_of_ne_nil]
  intro hnil
  have := congrArg List.length hnil
  simp at this
  omega

theorem summaryCount_def_at (n : Nat) :
    summaryCount topicCompressFrac n = ((n - 2) * 13 + 19) / 20 := rfl

theorem summaryCount_pos (n : Nat) (hn : 3 ≤ n) :
    1 ≤ summaryCount topicCompressFrac n := by
  rw [summaryCount_def_at, Nat.le_div_iff_mul_le (by norm_num)]
  omega

theorem summaryCount_le_interior (n : Nat) (hn : 3 ≤ n) :
    summaryCount topicCompressFrac n ≤ n - 2 := by
  rw [summaryCount_def_at]
  have : ((n - 2) * 13 + 19) / 20 < n - 1 := by
    rw [Nat.div_lt_iff_lt_mul (by norm_num)]
    omega
  omega

/-- C1: on a topic with at least three messages whose summarization call
succeeds, one attention compression returns true, keeps the first and last
messages, replaces exactly summaryCount contiguous interior messages
starting immediately after the first with one summary message, and yields
n - summaryCount + 1 messages, where summaryCount is the ceiling of
(n - 2) times the 0.65 topic compress fraction; in particular for
n = 4, 6, 8, 12 the summarized counts are 2, 3, 4, 7 and the resulting
lengths 3, 4, 5, 6. -/
theorem c1_compress_attention_shape (t : Topic) (svc : List Message → Option String)
    (s : String) (h3 : 3 ≤ t.messages.length)
    (hsvc : svc ((t.messages.drop 1).take
        (summaryCount topicCompressFrac t.messages.length)) = some s) :
    (t.compress_attention topicCompressFrac svc).1 = true
    ∧ (t.compress_attention topicCompressFrac svc).2.messages
        = t.messages.take 1
          ++ ({ ai := false, content := s, summary := true } : Message)
            :: t.messages.drop (1 + summaryCount topicCompressFrac t.messages.length)
    ∧ t.messages
        = t.messages.take 1
          ++ (t.messages.drop 1).take (summaryCount topicCompressFrac t.messages.length)
          ++ t.messages.drop (1 + summaryCount topicCompressFrac t.messages.length)
    ∧ ((t.messages.drop 1).take (summaryCount topicCompressFrac t.messages.length)).length
        = summaryCount topicCompressFrac t.messages.length
    ∧ (t.compress_attention topicCompressFrac svc).2.messages.length
        = t.messages.length - summaryCount topicCompressFrac t.messages.length + 1
    ∧ (t.compress_attention topicCompressFrac svc).2.messages.head? = t.messages.head?
    ∧ (t.compress_attention topicCompressFrac svc).2.messages.getLast? = t.messages.getLast?
    ∧ ((summaryCount topicCompressFrac t.messages.length : Nat) : ℤ)
        = ⌈((t.messages.length : ℚ) - 2) * topicCompressFrac.toRat⌉
    ∧ topicCompressFrac.toRat = 13 / 20
    ∧ summaryCount topicCompressFrac 4 = 2 ∧ summaryCount topicCompressFrac 6 = 3
    ∧ summaryCount topicCompressFrac 8 = 4 ∧ summaryCount topicCompressFrac 12 = 7
    ∧ 4 - summaryCount topicCompressFrac 4 + 1 = 3
    ∧ 6 - summaryCount topicCompressFrac 6 + 1 = 4
    ∧ 8 - summaryCount topicCompressFrac 8 + 1 = 5
    ∧ 12 - summaryCount topicCompressFrac 12 + 1 = 6 := by
  have hc1 : 1 ≤ summaryCount topicCompressFrac t.messages.length :=
    summaryCount_pos _ h3
  have hc2 : summaryCount topicCompressFrac t.messages.length ≤ t.messages.length - 2 :=
    summaryCount_le_interior _ h3
  have hspanlen : ((t.messages.drop 1).take
      (summaryCount topicCompressFrac t.messages.length)).length
      = summaryCount topicCompressFrac t.messages.length := by
    rw [List.length_take, List.length_drop]
    omega
  have hspan : ((t.messages.drop 1).take
      (summaryCount topicCompressFrac t.messages.length)).isEmpty = false := by
    rw [List.isEmpty_eq_false_iff_exists_mem]
    rcases List.exists_mem_of_length_pos (by omega : 0 < ((t.messages.drop 1).take
      (summaryCount topicCompressFrac t.messages.length)).length) with ⟨x, hx⟩
    exact ⟨x, hx⟩
  have key : t.compress_attention topicCompressFrac svc
      = (true, { t with messages :=
          t.messages.take 1
          ++ ({ ai := false, content := s, summary := true } : Message)
            :: t.messages.drop (1 + summaryCount topicCompressFrac t.messages.length) }) := by
    unfold Topic.compress_attention
    rw [if_pos h3, if_neg (by rw [hspan]; exact Bool.false_ne_true), hsvc]
  have hdroplen : (t.messages.drop
      (1 + summaryCount topicCompressFrac t.messages.length)).length
      = t.messages.length - (1 + summaryCount topicCompressFrac t.messages.length) :=
    List.length_drop _ _
  refine ⟨by rw [key], by rw [key], ?_, hspanlen, ?_, ?_, ?_, ?_,
    by norm_num [topicCompressFrac, Frac.toRat],
    by decide, by decide, by decide, by decide, by decide, by decide, by decide, by decide⟩
  · have hdd : t.messages.drop (1 + summaryCount topicCompressFrac t.messages.length)
        = (t.messages.drop 1).drop (summaryCount topicCompressFrac t.messages.length) := by
      rw [List.drop_drop, Nat.add_comm]
    rw [List.append_assoc, hdd, List.take_append_drop, List.take_append_drop]
  · rw [key]
    simp only [List.length_append, List.length_cons, List.length_take, hdroplen]
    omega
  · obtain ⟨m0, ms, hm⟩ : ∃ m0 ms, t.messages = m0 :: ms := by
      cases hm2 : t.messages with
      | nil => rw [hm2] at h3; simp at h3
      | cons a l => exact ⟨a, l, rfl⟩
    rw [key]
    simp only
    rw [hm]
    simp
  · rw [key]
    simp only
    rw [List.getLast?_append_cons]
    have hne : t.messages.drop (1 + summaryCount topicCompressFrac t.messages.length) ≠ [] := by
      intro hnil
      have := congrArg List.length hnil
      rw [hdroplen] at this
      simp at this
      omega
    calc (({ ai := false, content := s, summary := true } : Message)
            :: t.messages.drop (1 + summaryCount topicCompressFrac t.messages.length)).getLast?
        = (t.messages.drop (1 + summaryCount topicCompressFrac t.messages.length)).getLast? := by
          rw [show (({ ai := false, content := s, summary := true } : Message)
              :: t.messages.drop (1 + summaryCount topicCompressFrac t.messages.length))
            = [({ ai := false, content := s, summary := true } : Message)]
              ++ t.messages.drop (1 + summaryCount topicCompressFrac t.messages.length) from rfl]
          exact List.getLast?_append_of_ne_nil _ hne
      _ = t.messages.getLast? := getLast?_drop_of_lt _ _ (by omega)
  · exact summaryCount_eq_ceil topicCompressFrac (by norm_num [topicCompressFrac]) _ (by omega)

/-- Witness for C1 on a concrete eight-message topic with the mock
summarization service. -/
theorem c1_witness :
    ((topicW 8).compress_attention topicCompressFrac cfgW.summarize).1 = true
    ∧ ((topicW 8).compress_attention topicCompressFrac cfgW.summarize).2.messages.length = 5
    ∧ ((topicW 8).compress_attention topicCompressFrac cfgW.summarize).2.messages.head?
        = (topicW 8).messages.head?
    ∧ ((topicW 8).compress_attention topicCompressFrac cfgW.summarize).2.messages.getLast?
        = (topicW 8).messages.getLast? := by
  have h := c1_compress_attention_shape (topicW 8) cfgW.summarize "mock summary"
    (by decide) rfl
  refine ⟨h.1, ?_, h.2.2.2.2.2.1, h.2.2.2.2.2.2.1⟩
  rw [h.2.2.2.2.1]
  decide

theorem argmaxBy_mem (f : Nat → Nat) (l : List Nat) (j : Nat)
    (h : argmaxBy f l = some j) : j ∈ l := by
  induction l with
  | nil => simp [argmaxBy] at h
  | cons i is ih =>
      rw [argmaxBy] at h
      rcases hr : argmaxBy f is with _ | j'
      · rw [hr] at h
        rw [show (match (none : Option Nat) with
            | none => some i | some j => if f i < f j then some j else some i) = some i
          from rfl] at h
        simp at h
        simp [h]
      · rw [hr] at h
        rw [show (match (some j' : Option Nat) with
            | none => some i | some j => if f i < f j then some j else some i)
            = if f i < f j' then some j' else some i from rfl] at h
        by_cases hf : f i < f j'
        · rw [if_pos hf] at h
          simp at h
          exact List.mem_cons_of_mem _ (ih (h ▸ hr))
        · rw [if_neg hf] at h
          simp at h
          simp [h]

theorem argmaxBy_none_iff (f : Nat → Nat) (l : List Nat) :
    argmaxBy f l = none ↔ l = [] := by
  cases l with
  | nil => simp [argmaxBy]
  | cons i is =>
      simp only [argmaxBy]
      constructor
      · intro h
        rcases hr : argmaxBy f is with _ | j'
        · rw [hr] at h
          rw [show (match (none : Option Nat) with
              | none => some i | some j => if f i < f j then some j else some i) = some i
            from rfl] at h
          simp at h
        · rw [hr] at h
          rw [show (match (some j' : Option Nat) with
              | none => some i | some j => if f i < f j then some j else some i)
              = if f i < f j' then some j' else some i from rfl] at h
          split at h <;> simp at h
      · intro h
        exact absurd h (List.cons_ne_nil _ _)

theorem getD_set_ne {α : Type} (l : List α) (i j : Nat) (a d : α) (h : i ≠ j) :
    (l.set i a).getD j d = l.getD j d := by
  simp [List.getD_eq_getElem?_getD, List.getElem?_set_ne h]

/-- C8: large-message compression preserves the number and order of the
messages; the scanned offenders are exactly the interior messages (never
index 0 or the last) whose token count exceeds the configured threshold; it
returns true iff there is at least one offender, in which case exactly one
offender is replaced in place by its truncation and every other message is
unchanged; truncation keeps short content and otherwise replaces it with a
head and tail excerpt around a placeholder stating the omitted length. -/
theorem c8_compress_large_messages (cfg : Config) (t : Topic) :
    (t.compress_large_messages cfg).2.messages.length = t.messages.length
    ∧ (∀ i, i ∈ t.interiorOver cfg ↔
        (1 ≤ i ∧ i + 1 < t.messages.length
          ∧ cfg.msgOver (t.messages.getD i default) = true))
    ∧ ((t.compress_large_messages cfg).1 = true ↔ t.interiorOver cfg ≠ [])
    ∧ ((t.compress_large_messages cfg).1 = false →
        (t.compress_large_messages cfg).2 = t)
    ∧ ((t.compress_large_messages cfg).1 = true → ∃ j, j ∈ t.interiorOver cfg
        ∧ (t.compress_large_messages cfg).2.messages
            = t.messages.set j ((t.messages.getD j default).truncate cfg.trimChars)
        ∧ ∀ i, i ≠ j →
            (t.compress_large_messages cfg).2.messages.getD i default
              = t.messages.getD i default)
    ∧ (∀ m : Message, (m.truncate cfg.trimChars).content
        = if m.content.length ≤ cfg.trimChars then m.content
          else m.content.take (cfg.trimChars / 2)
            ++ "[... omitted " ++ toString (m.content.length - cfg.trimChars)
            ++ " characters ...]"
            ++ m.content.takeRight (cfg.trimChars / 2)) := by
  have hmemiff : ∀ i, i ∈ t.interiorOver cfg ↔
      (1 ≤ i ∧ i + 1 < t.messages.length
        ∧ cfg.msgOver (t.messages.getD i default) = true) := by
    intro i
    simp only [Topic.interiorOver, List.mem_filter, List.mem_range,
      Bool.and_eq_true, decide_eq_true_eq]
    constructor
    · rintro ⟨_, ⟨h1, h2⟩, h3⟩
      exact ⟨h1, h2, h3⟩
    · rintro ⟨h1, h2, h3⟩
      exact ⟨by omega, ⟨h1, h2⟩, h3⟩
  have htrunc : ∀ m : Message, (m.truncate cfg.trimChars).content
      = if m.content.length ≤ cfg.trimChars then m.content
        else m.content.take (cfg.trimChars / 2)
          ++ "[... omitted " ++ toString (m.content.length - cfg.trimChars)
          ++ " characters ...]"
          ++ m.content.takeRight (cfg.trimChars / 2) := by
    intro m
    unfold Message.truncate
    split <;> rfl
  rcases hma : argmaxBy (fun i => cfg.tokenCount (t.messages.getD i default).render)
      (t.interiorOver cfg) with _ | j
  · have hnil : t.interiorOver cfg = [] := (argmaxBy_none_iff _ _).mp hma
    have hr : t.compress_large_messages cfg = (false, t) := by
      unfold Topic.compress_large_messages
      rw [hma]
    refine ⟨by rw [hr], hmemiff, ?_, fun _ => by rw [hr], ?_, htrunc⟩
    · rw [hr]
      simp [hnil]
    · intro hfalse
      rw [hr] at hfalse
      simp at hfalse
  · have hjmem : j ∈ t.interiorOver cfg := argmaxBy_mem _ _ _ hma
    have hr : t.compress_large_messages cfg
        = (true, { t with messages :=
            t.messages.set j ((t.messages.getD j default).truncate cfg.trimChars) }) := by
      unfold Topic.compress_large_messages
      rw [hma]
    refine ⟨by rw [hr]; simp, hmemiff, ?_, ?_, ?_, htrunc⟩
    · rw [hr]
      simp only [true_iff]
      exact List.ne_nil_of_mem hjmem
    · intro hfalse
      rw [hr] at hfalse
      simp at hfalse
    · intro _
      refine ⟨j, hjmem, by rw [hr], ?_⟩
      intro i hne
      rw [hr]
      exact getD_set_ne _ _ _ _ _ (Ne.symm hne)

/-- Witness for C8: the concrete over-threshold middle message of topicT is
truncated, boundaries and message count preserved. -/
theorem c8_witness :
    (topicT.compress_large_messages cfgT).1 = true
    ∧ (topicT.compress_large_messages cfgT).2.messages.length = topicT.messages.length
    ∧ ((⟨true, "0123456789ABCDEF", false⟩ : Message).truncate cfgT.trimChars).content
        = "01234" ++ "[... omitted 6 characters ...]" ++ "BCDEF" := by
  have h := c8_compress_large_messages cfgT topicT
  refine ⟨(h.2.2.1).mpr (by decide), h.1, ?_⟩
  rw [h.2.2.2.2.2 ⟨true, "0123456789ABCDEF", false⟩]
  decide

theorem WF_tierFrac_num (cfg : Config) (hwf : cfg.WF) (tr : Tier) :
    0 < (cfg.tierFrac tr).num := by
  obtain ⟨_, _, h1, _, h2, _, h3, _⟩ := hwf
  cases tr
  exacts [h1, h2, h3]

theorem WF_tierFrac_den (cfg : Config) (hwf : cfg.WF) (tr : Tier) :
    0 < (cfg.tierFrac tr).den := by
  obtain ⟨_, _, _, h1, _, h2, _, h3⟩ := hwf
  cases tr
  exacts [h1, h2, h3]

theorem tierOverB_iff (cfg : Config) (h : History) (hwf : cfg.WF) (tr : Tier) :
    h.tierOverB cfg tr = true ↔ h.tierOverQ cfg tr := by
  have hfd : (0:ℚ) < ((cfg.tierFrac tr).den : ℚ) := by
    exact_mod_cast WF_tierFrac_den cfg hwf tr
  have hhd : (0:ℚ) < (cfg.ctxHistory.den : ℚ) := by
    exact_mod_cast hwf.2.1
  simp only [History.tierOverB, decide_eq_true_eq, History.tierOverQ, Frac.toRat]
  have key : (cfg.ctxLength : ℚ) * ((cfg.ctxHistory.num : ℚ) / (cfg.ctxHistory.den : ℚ))
      * (((cfg.tierFrac tr).num : ℚ) / ((cfg.tierFrac tr).den : ℚ))
      = ((cfg.ctxLength : ℚ) * (cfg.ctxHistory.num : ℚ) * ((cfg.tierFrac tr).num : ℚ))
        / ((cfg.ctxHistory.den : ℚ) * ((cfg.tierFrac tr).den : ℚ)) := by
    ring
  rw [key, div_lt_iff₀ (by positivity)]
  constructor <;> intro h' <;> exact_mod_cast h'

theorem shareGeB_iff (cfg : Config) (h : History) (hwf : cfg.WF) (a b : Tier) :
    h.shareGeB cfg a b = true ↔ h.tierShare cfg b ≤ h.tierShare cfg a := by
  have hna : (0:ℚ) < ((cfg.tierFrac a).num : ℚ) := by
    exact_mod_cast WF_tierFrac_num cfg hwf a
  have hnb : (0:ℚ) < ((cfg.tierFrac b).num : ℚ) := by
    exact_mod_cast WF_tierFrac_num cfg hwf b
  simp only [History.shareGeB, decide_eq_true_eq, History.tierShare]
  rw [div_le_div_iff₀ hnb hna]
  constructor <;> intro h' <;> exact_mod_cast h'

theorem shareGeB_false (cfg : Config) (h : History) (hwf : cfg.WF) (a b : Tier)
    (hf : h.shareGeB cfg a b = false) :
    h.tierShare cfg a < h.tierShare cfg b := by
  by_contra hc
  rw [not_lt] at hc
  have := (shareGeB_iff cfg h hwf a b).mpr hc
  rw [hf] at this
  exact Bool.false_ne_true this

theorem tierOverB_false (cfg : Config) (h : History) (hwf : cfg.WF) (tr : Tier)
    (hf : h.tierOverB cfg tr = false) : ¬ h.tierOverQ cfg tr := by
  intro hq
  have := (tierOverB_iff cfg h hwf tr).mpr hq
  rw [hf] at this
  exact Bool.false_ne_true this

theorem mostOverTier_spec (cfg : Config) (h : History) (hwf : cfg.WF) (tr : Tier)
    (hsel : h.mostOverTier cfg = some tr) :
    h.tierOverQ cfg tr
      ∧ ∀ tr', h.tierOverQ cfg tr' → h.tierShare cfg tr' ≤ h.tierShare cfg tr := by
  unfold History.mostOverTier at hsel
  split_ifs at hsel with h1 h2 h3
  · injection hsel with htr
    subst htr
    simp only [Bool.and_eq_true, Bool.or_eq_true, Bool.not_eq_true'] at h1
    obtain ⟨⟨hc, hto⟩, hbo⟩ := h1
    refine ⟨(tierOverB_iff cfg h hwf .curr).mp hc, ?_⟩
    intro tr' htr'
    cases tr' with
    | curr => exact le_refl _
    | closedTopics =>
        rcases hto with hf | hg
        · exact absurd htr' (tierOverB_false cfg h hwf _ hf)
        · exact (shareGeB_iff cfg h hwf _ _).mp hg
    | bulkTier =>
        rcases hbo with hf | hg
        · exact absurd htr' (tierOverB_false cfg h hwf _ hf)
        · exact (shareGeB_iff cfg h hwf _ _).mp hg
  · injection hsel with htr
    subst htr
    simp only [Bool.and_eq_true, Bool.or_eq_true, Bool.not_eq_true'] at h2
    obtain ⟨hto, hbo⟩ := h2
    refine ⟨(tierOverB_iff cfg h hwf .closedTopics).mp hto, ?_⟩
    intro tr' htr'
    cases tr' with
    | closedTopics => exact le_refl _
    | bulkTier =>
        rcases hbo with hf | hg
        · exact absurd htr' (tierOverB_false cfg h hwf _ hf)
        · exact (shareGeB_iff cfg h hwf _ _).mp hg
    | curr =>
        have hcB : h.tierOverB cfg .curr = true :=
          (tierOverB_iff cfg h hwf .curr).mpr htr'
        rcases hg1 : h.shareGeB cfg .curr .closedTopics with _ | _
        · exact le_of_lt (shareGeB_false cfg h hwf _ _ hg1)
        · exfalso
          rcases hg2 : h.shareGeB cfg .curr .bulkTier with _ | _
          · rcases hob : h.tierOverB cfg .bulkTier with _ | _
            · exact h1 (by simp [hcB, hg1, hob])
            · rcases hbo with hf | hg
              · rw [hob] at hf; exact Bool.noConfusion hf
              · have hs1 : h.tierShare cfg .curr < h.tierShare cfg .bulkTier :=
                  shareGeB_false cfg h hwf _ _ hg2
                have hs2 : h.tierShare cfg .bulkTier ≤ h.tierShare cfg .closedTopics :=
                  (shareGeB_iff cfg h hwf _ _).mp hg
                have hs3 : h.tierShare cfg .closedTopics ≤ h.tierShare cfg .curr :=
                  (shareGeB_iff cfg h hwf _ _).mp hg1
                linarith
          · exact h1 (by simp [hcB, hg1, hg2])
  · injection hsel with htr
    subst htr
    refine ⟨(tierOverB_iff cfg h hwf .bulkTier).mp h3, ?_⟩
    intro tr' htr'
    cases tr' with
    | bulkTier => exact le_refl _
    | closedTopics =>
        have htB : h.tierOverB cfg .closedTopics = true :=
          (tierOverB_iff cfg h hwf .closedTopics).mpr htr'
        rcases hg3 : h.shareGeB cfg .closedTopics .bulkTier with _ | _
        · exact le_of_lt (shareGeB_false cfg h hwf _ _ hg3)
        · exact absurd (by simp [htB, hg3] : _ = true) h2
    | curr =>
        have hcB : h.tierOverB cfg .curr = true :=
          (tierOverB_iff cfg h hwf .curr).mpr htr'
        rcases hg1 : h.shareGeB cfg .curr .closedTopics with _ | _
        · rcases hg3 : h.shareGeB cfg .closedTopics .bulkTier with _ | _
          · have hs1 : h.tierShare cfg .curr < h.tierShare cfg .closedTopics :=
              shareGeB_false cfg h hwf _ _ hg1
            have hs2 : h.tierShare cfg .closedTopics < h.tierShare cfg .bulkTier :=
              shareGeB_false cfg h hwf _ _ hg3
            linarith
          · have hotB : h.tierOverB cfg .closedTopics = false := by
              rcases hot : h.tierOverB cfg .closedTopics with _ | _
              · rfl
              · exact absurd (by simp [hot, hg3] : _ = true) h2
            have hs1 : h.tierShare cfg .curr < h.tierShare cfg .closedTopics :=
              shareGeB_false cfg h hwf _ _ hg1
            rcases hg2 : h.shareGeB cfg .curr .bulkTier with _ | _
            · exact le_of_lt (shareGeB_false cfg h hwf _ _ hg2)
            · exact absurd (by simp [hcB, hotB, hg2] : _ = true) h1
        · rcases hg2 : h.shareGeB cfg .curr .bulkTier with _ | _
          · exact le_of_lt (shareGeB_false cfg h hwf _ _ hg2)
          · exact absurd (by simp [hcB, hg1, hg2] : _ = true) h1

/-- C3: one compress call attempts at most one compression action, on the
most over-budget tier (tokens relative to the tier budget fraction, with
the priority order current topic, closed topics, bulks breaking ties), and
returns exactly that action result, true as soon as the one action
succeeds; when no tier is over budget it is a no-op reporting false.  The
closed conjuncts exhibit a call that returns true while the history is
still over the limit, so reducing below the limit requires repeated
calls. -/
theorem c3_compress_policy (cfg : Config) (h : History) (hwf : cfg.WF) :
    ((∀ tr, h.tierOverB cfg tr = false) → h.compress cfg = (false, h))
    ∧ (∀ tr, h.tierOverB cfg tr = true ↔ h.tierOverQ cfg tr)
    ∧ (∀ tr, h.mostOverTier cfg = some tr →
        h.compress cfg = h.tierAction cfg tr
        ∧ h.tierOverQ cfg tr
        ∧ ∀ tr', h.tierOverQ cfg tr' → h.tierShare cfg tr' ≤ h.tierShare cfg tr)
    ∧ (hOver.compress cfgOver).1 = true
    ∧ ((hOver.compress cfgOver).2.is_over_limit cfgOver) = true := by
  refine ⟨?_, fun tr => tierOverB_iff cfg h hwf tr, ?_, by decide, by decide⟩
  · intro hall
    simp [History.compress, mostOverTier_none cfg h hall]
  · intro tr hsel
    refine ⟨?_, (mostOverTier_spec cfg h hwf tr hsel).1,
      (mostOverTier_spec cfg h hwf tr hsel).2⟩
    simp [History.compress, hsel]

/-- Witness for C3: the empty history under the generous configuration is a
false no-op, and the concrete over-budget history compresses with a true
result yet stays over the limit. -/
theorem c3_witness :
    History.compress cfgW History.new = (false, History.new)
    ∧ (hOver.compress cfgOver).1 = true
    ∧ ((hOver.compress cfgOver).2.is_over_limit cfgOver) = true :=
  ⟨(c3_compress_policy cfgW History.new (by decide)).1 (fun tr => by cases tr <;> rfl),
   (c3_compress_policy cfgW History.new (by decide)).2.2.2.1,
   (c3_compress_policy cfgW History.new (by decide)).2.2.2.2⟩

theorem accept_summary {t : Topic} {b b' : Bulk}
    (hacc : Bulk.accept t b = some b') :
    t.summary ≠ "" ∧ b'.records = b.records ++ [t] := by
  unfold Bulk.accept at hacc
  by_cases hs : t.summary = ""
  · rw [if_pos hs] at hacc
    exact absurd hacc (by simp)
  · rw [if_neg hs] at hacc
    cases hacc
    exact ⟨hs, rfl⟩

theorem BulkInv_fold {cfg : Config} {t : Topic} {h h' : History}
    (hinv : BulkInv h) (hf : h.fold_topic cfg t = some h') : BulkInv h' := by
  unfold History.fold_topic at hf
  split at hf
  · next b hlast =>
      have hbmem : b ∈ h.bulks := List.mem_of_mem_getLast? hlast
      split at hf
      · split at hf
        · next b' hacc =>
            cases hf
            intro bb hbb r hr
            rcases List.mem_append.mp hbb with hold | hnew
            · exact hinv bb (List.mem_of_mem_dropLast hold) r hr
            · have hb' : bb = b' := by simpa using hnew
              subst hb'
              rw [(accept_summary hacc).2] at hr
              rcases List.mem_append.mp hr with hrold | hrnew
              · exact hinv b hbmem r hrold
              · have hrt : r = t := by simpa using hrnew
                subst hrt
                exact (accept_summary hacc).1
        · exact absurd hf (by simp)
      · split at hf
        · next b' hacc =>
            cases hf
            intro bb hbb r hr
            rcases List.mem_append.mp hbb with hold | hnew
            · exact hinv bb hold r hr
            · have hb' : bb = b' := by simpa using hnew
              subst hb'
              rw [(accept_summary hacc).2] at hr
              have hrt : r = t := by simpa [Bulk.empty] using hr
              subst hrt
              exact (accept_summary hacc).1
        · exact absurd hf (by simp)
  · next hlast =>
      split at hf
      · next b' hacc =>
          cases hf
          intro bb hbb r hr
          rcases List.mem_append.mp hbb with hold | hnew
          · exact hinv bb hold r hr
          · have hb' : bb = b' := by simpa using hnew
            subst hb'
            rw [(accept_summary hacc).2] at hr
            have hrt : r = t := by simpa [Bulk.empty] using hr
            subst hrt
            exact (accept_summary hacc).1
      · exact absurd hf (by simp)

theorem BulkInv_compress_topics {cfg : Config} {h : History}
    (hinv : BulkInv h) : BulkInv (h.compress_topics cfg).2 := by
  unfold History.compress_topics
  split
  · exact hinv
  · next t rest htop =>
      split
      · split
        · next h2 hfold =>
            intro bb hbb
            exact BulkInv_fold hinv hfold bb hbb
        · exact hinv
      · exact hinv

theorem BulkInv_bulk_action {cfg : Config} {h : History}
    (hinv : BulkInv h) : BulkInv (h.bulk_tier_action cfg).2 := by
  have hm : h.merge_bulks_by cfg.bulkMergeCount = (false, h) := by
    unfold History.merge_bulks_by
    split <;> rfl
  unfold History.bulk_tier_action
  rw [hm]
  simp only [Bool.false_eq_true, if_false]
  split
  · exact hinv
  · next b0 rest hb =>
      intro bb hbb
      exact hinv bb (hb ▸ List.mem_cons_of_mem _ hbb)

theorem BulkInv_compress_current {cfg : Config} {h : History}
    (hinv : BulkInv h) : BulkInv (h.compress_current_topic cfg).2 :=
  hinv

theorem BulkInv_compress {cfg : Config} {h : History}
    (hinv : BulkInv h) : BulkInv (h.compress cfg).2 := by
  unfold History.compress
  rcases hsel : h.mostOverTier cfg with _ | tr
  · exact hinv
  · cases tr with
    | curr => exact BulkInv_compress_current hinv
    | closedTopics => exact BulkInv_compress_topics hinv
    | bulkTier => exact BulkInv_bulk_action hinv

theorem BulkInv_compress_bulks {h : History}
    (hinv : BulkInv h) : BulkInv h.compress_bulks.2 := by
  unfold History.compress_bulks
  rcases hb : h.bulks with _ | ⟨b0, rest⟩
  · exact hinv
  · simp only
    intro bb hbb
    exact hinv bb (hb ▸ List.mem_cons_of_mem _ hbb)

/-- C5: a bulk never accepts a topic lacking a summary, and therefore after
any sequence of history operations every topic record stored inside any
bulk of the bulk tier carries a non-empty summary. -/
theorem c5_bulk_summary_invariant :
    (∀ (t : Topic) (b : Bulk), t.summary = "" → Bulk.accept t b = none)
    ∧ ∀ h : History, Reachable h → BulkInv h := by
  constructor
  · intro t b hs
    unfold Bulk.accept
    rw [if_pos hs]
  · intro h hr
    induction hr with
    | init => intro bb hbb; exact absurd hbb (by simp [History.new])
    | add ai c hprev ih => exact ih
    | newTopic hprev ih =>
        unfold History.new_topic
        split
        · exact ih
        · exact ih
    | comp cfg hprev ih => exact BulkInv_compress ih
    | compCurrent cfg hprev ih => exact BulkInv_compress_current ih
    | compTopics cfg hprev ih => exact BulkInv_compress_topics ih
    | compBulks hprev ih => exact BulkInv_compress_bulks ih
    | mergeBulks n hprev ih =>
        unfold History.merge_bulks_by
        split
        · exact ih
        · exact ih
    | roundTrip hprev hdict ih =>
        rw [from_dict_serialize] at hdict
        cases hdict
        exact ih

/-- Witness for C5: the invariant instantiated at a small reachable
history. -/
theorem c5_witness :
    BulkInv (History.add_message false "Hi" History.new) :=
  c5_bulk_summary_invariant.2 _ (Reachable.add false "Hi" Reachable.init)

end AgentZero

namespace AgentManager

/-- C10: delete_agent raises a ValueError and removes no files whenever the
named agent does not exist (an empty name counts as non-existent), the name
is zero, the name equals the currently selected agent, or the confirmation
differs from the exact string DELETE followed by the name; only when all
four checks pass does it remove the agent directory tree and return true. -/
theorem c10_delete_agent_checks (fs : FsState) (name conf : String) :
    (((name = "" ∨ agent_exists fs name = false) ∨ name = "zero"
        ∨ name = fs.currentAgent ∨ conf ≠ "DELETE " ++ name) →
      (∃ e, (delete_agent fs name conf).1 = .error e)
        ∧ (delete_agent fs name conf).2 = fs)
    ∧ ((name ≠ "" ∧ agent_exists fs name = true ∧ name ≠ "zero"
        ∧ name ≠ fs.currentAgent ∧ conf = "DELETE " ++ name) →
      delete_agent fs name conf
        = (.ok true, { fs with agents := fs.agents.filter (fun p => p.1 ≠ name) })) := by
  constructor
  · intro hcond
    unfold delete_agent
    split_ifs with h1 h2 h3 h4
    · exact ⟨⟨_, rfl⟩, rfl⟩
    · exact ⟨⟨_, rfl⟩, rfl⟩
    · exact ⟨⟨_, rfl⟩, rfl⟩
    · exact ⟨⟨_, rfl⟩, rfl⟩
    · exfalso
      push_neg at h1
      rcases hcond with (h | h | h | h)
      · rcases h with h | h
        · exact h1.1 h
        · exact absurd h (by simp [h1.2])
      · exact h2 h
      · exact h3 h
      · exact h4 h
  · rintro ⟨hn, he, hz, hc, hcf⟩
    have g1 : ¬(name = "" ∨ agent_exists fs name = false) := by
      simp [hn, he]
    have g4 : ¬conf ≠ "DELETE " ++ name := not_not.mpr hcf
    simp only [delete_agent, if_neg g1, if_neg hz, if_neg hc, if_neg g4]

/-- Witness for C10: both a rejected deletion (zero agent) and an accepted
one on a concrete three-agent state. -/
theorem c10_witness :
    ((∃ e, (delete_agent ⟨[("zero", ["memory"]), ("alpha", ["memory"]), ("beta", ["memory"])], "alpha"⟩
        "zero" "DELETE zero").1 = .error e)
      ∧ (delete_agent ⟨[("zero", ["memory"]), ("alpha", ["memory"]), ("beta", ["memory"])], "alpha"⟩
        "zero" "DELETE zero").2
        = ⟨[("zero", ["memory"]), ("alpha", ["memory"]), ("beta", ["memory"])], "alpha"⟩)
    ∧ delete_agent ⟨[("zero", ["memory"]), ("alpha", ["memory"]), ("beta", ["memory"])], "alpha"⟩
        "beta" "DELETE beta"
      = (.ok true, ⟨[("zero", ["memory"]), ("alpha", ["memory"])], "alpha"⟩) :=
  ⟨(c10_delete_agent_checks
      ⟨[("zero", ["memory"]), ("alpha", ["memory"]), ("beta", ["memory"])], "alpha"⟩
      "zero" "DELETE zero").1 (Or.inr (Or.inl rfl)),
   (c10_delete_agent_checks
      ⟨[("zero", ["memory"]), ("alpha", ["memory"]), ("beta", ["memory"])], "alpha"⟩
      "beta" "DELETE beta").2 (by refine ⟨by decide, by decide, by decide, by decide, rfl⟩)⟩

end AgentManager
